import Mathlib

/-!
Shallow embedding of the iCE40 control-set optimizer
(`sw/ice40_opt_cset.py`): a post-mapping netlist pass that reduces the
number of distinct flip-flop control sets (reset/set, enable, clock) by
emulating removed reset/enable behaviour inside reused or freshly
inserted 4-input lookup tables.

Modelling conventions:
* The netlist is a list of cells.  Each cell has a name, a type tag,
  a list of named directed ports (each optionally bound to a net name)
  and a list of string parameters.  Nets are identified by name; a
  net's driver / users are recovered by scanning for output / input
  port bindings, mirroring the `net.driver` / `net.users` accessors of
  the Python netlist API.
* Python dictionaries become association lists preserving insertion
  order with unique keys; `dict.setdefault(k, []).append/extend`,
  `dict.pop` and key-order iteration are modelled by the `mapAppend`,
  `mapExtend`, `mapPop` and `List.map Prod.fst` operations below.
* Places where the Python code would raise (a dangling net driver, a
  missing dictionary key, popping an empty list) are modelled with a
  benign default; every claim is evaluated on states where the source
  does not raise.
* Machine integers are `Nat`; the 16-bit LUT truth table is kept below
  `2 ^ 16` and bit surgery is explicit (`|||`, `&&&`, `^^^` against the
  16-bit mask 65535).
-/

namespace Ice40Cset

/-- Python truthiness of an optional string: `None` and the empty
string are falsy, any other string is truthy. -/
def pyTruthy (s : Option String) : Bool :=
  match s with
  | none => false
  | some v => v ≠ ""

/-- Python `a or b` on optional strings (used by `ControlSet.from_cell`
for `net_r or net_s`). -/
def pyOr (a b : Option String) : Option String :=
  if pyTruthy a then a else b

/-- Substring occurrence on character lists (structural, so that
concrete runs reduce inside the kernel). -/
def hasSubstr (s pat : List Char) : Bool :=
  match s with
  | [] => pat.isEmpty
  | _ :: rest => pat.isPrefixOf s || hasSubstr rest pat

/-- Python `pat in s` substring containment (for non-empty patterns). -/
def strContains (s pat : String) : Bool :=
  hasSubstr s.data pat.data

/-- Replace every non-overlapping occurrence of `pat` (non-empty) by
`rep`, left to right, as Python `str.replace` does.  The fuel argument
is the remaining length bound, keeping the recursion structural. -/
def replaceAux (rep pat : List Char) : Nat → List Char → List Char
  | 0, s => s
  | fuel + 1, s =>
    match s with
    | [] => []
    | c :: rest =>
      if pat ≠ [] && pat.isPrefixOf s then
        rep ++ replaceAux rep pat fuel (s.drop pat.length)
      else
        c :: replaceAux rep pat fuel rest

/-- Python `s.replace(pat, rep)` for non-empty patterns. -/
def strReplace (s pat rep : String) : String :=
  ⟨replaceAux rep.data pat.data s.data.length s.data⟩

/-- Python `s.startswith(pat)`. -/
def strStartsWith (s pat : String) : Bool :=
  pat.data.isPrefixOf s.data

/-- Code-point lexicographic strict order on character lists (the
order Python uses to compare strings). -/
def charsLT : List Char → List Char → Bool
  | [], [] => false
  | [], _ :: _ => true
  | _ :: _, [] => false
  | a :: as, b :: bs =>
    if a.toNat < b.toNat then true
    else if b.toNat < a.toNat then false
    else charsLT as bs

/-- Python `a < b` on strings. -/
def strLT (a b : String) : Bool :=
  charsLT a.data b.data

/-- Python `a <= b` on strings (total order, so the complement of the
reversed strict order). -/
def strLE (a b : String) : Bool :=
  !(strLT b a)

/-- Stable insertion of an element into a sorted list: the element
lands after every earlier element it does not strictly precede. -/
def orderedInsert (le : α → α → Bool) (a : α) : List α → List α
  | [] => [a]
  | b :: l => if le a b then a :: b :: l else b :: orderedInsert le a l

/-- Stable ascending sort, modelling Python `sorted`: for a total
preorder comparator the stable sorted permutation is unique, so this
insertion sort produces exactly the list Python's stable sort does. -/
def sortBy (le : α → α → Bool) : List α → List α
  | [] => []
  | a :: l => orderedInsert le a (sortBy le l)

/-- Python `list.pop()`: the last element together with the remaining
list (`none` and the empty list when the list is empty, where Python
would raise `IndexError`). -/
def popLast (l : List String) : Option String × List String :=
  (l.getLast?, l.dropLast)

/-- Parse a binary string into a natural number, as `int(val, 2)` does
for well-formed binary literals. -/
def parseBin (s : String) : Nat :=
  s.data.foldl (fun a c => 2 * a + (if c = '1' then 1 else 0)) 0

/-- Format a 16-bit value as a 16-character binary string, most
significant bit first, as the Python format `f'{val:016b}'` does for
values below `2 ^ 16`. -/
def formatBin16 (val : Nat) : String :=
  String.mk ((List.range 16).map (fun k => if val.testBit (15 - k) then '1' else '0'))

/-! ## Netlist data model -/

/-- Direction of a cell port. -/
inductive PDir where
  | input
  | output
deriving DecidableEq

/-- A named cell port, optionally bound to a net (by net name). -/
structure PortB where
  pname : String
  dir : PDir
  net : Option String
deriving DecidableEq

/-- A netlist cell: name, type tag, ports, string parameters. -/
structure Cell where
  name : String
  type : String
  ports : List PortB
  params : List (String × String)
deriving DecidableEq

/-- The netlist is the ordered list of its cells. -/
abbrev Netlist := List Cell

/-- Net bound to a named port of a cell, `none` when the port is
unbound or not declared (`cell.ports[p].net`). -/
def Cell.portNet (c : Cell) (p : String) : Option String :=
  match c.ports.find? (fun pb => pb.pname = p) with
  | some pb => pb.net
  | none => none

/-- Read a named parameter of a cell (`cell.params[k]`). -/
def Cell.getParam (c : Cell) (k : String) : Option String :=
  (c.params.find? (fun kv => kv.1 = k)).map (fun kv => kv.2)

/-- Set a named parameter of a cell (`cell.setParam`), overwriting the
first existing binding or appending a new one. -/
def Cell.setParam (c : Cell) (k v : String) : Cell :=
  { c with params :=
      if (c.params.find? (fun kv => kv.1 = k)).isSome then
        c.params.map (fun kv => if kv.1 = k then (kv.1, v) else kv)
      else
        c.params ++ [(k, v)] }

/-- Declare a fresh input port on a cell (`cell.addInput`). -/
def Cell.addInput (c : Cell) (p : String) : Cell :=
  { c with ports := c.ports ++ [⟨p, PDir.input, none⟩] }

/-- Declare a fresh output port on a cell (`cell.addOutput`). -/
def Cell.addOutput (c : Cell) (p : String) : Cell :=
  { c with ports := c.ports ++ [⟨p, PDir.output, none⟩] }

/-- Look a cell up by name. -/
def findCell (nl : Netlist) (n : String) : Option Cell :=
  nl.find? (fun c => c.name = n)

/-- Driver of a net (`net.driver`): the first cell with an output port
bound to the net, together with that port's name. -/
def netDriver (nl : Netlist) (net : String) : Option (Cell × String) :=
  nl.findSome? (fun c =>
    (c.ports.find? (fun pb => pb.dir = PDir.output && pb.net = some net)).map
      (fun pb => (c, pb.pname)))

/-- Users of a net (`net.users`): every (cell, input-port) pair bound
to the net, in netlist order. -/
def netUsers (nl : Netlist) (net : String) : List (Cell × String) :=
  (nl.map (fun c =>
    (c.ports.filter (fun pb => pb.dir = PDir.input && pb.net = some net)).map
      (fun pb => (c, pb.pname)))).flatten

/-- Apply a function to the named cell, leaving all others unchanged. -/
def updateCell (nl : Netlist) (n : String) (f : Cell → Cell) : Netlist :=
  nl.map (fun c => if c.name = n then f c else c)

/-- Rebind a named port of a cell. -/
def setPortNet (c : Cell) (p : String) (v : Option String) : Cell :=
  { c with ports := c.ports.map (fun pb => if pb.pname = p then ⟨pb.pname, pb.dir, v⟩ else pb) }

/-- `ctx.disconnectPort(cell, port)`: unbind a named port (no-op when
the cell or the port does not exist). -/
def disconnectPort (nl : Netlist) (cn pn : String) : Netlist :=
  updateCell nl cn (fun c => setPortNet c pn none)

/-- `ctx.connectPort(net, cell, port)`: bind a named port to a net. -/
def connectPort (nl : Netlist) (net cn pn : String) : Netlist :=
  updateCell nl cn (fun c => setPortNet c pn (some net))

/-- Overwrite a cell's type tag (`cell.type = t`). -/
def setCellType (nl : Netlist) (cn t : String) : Netlist :=
  updateCell nl cn (fun c => { c with type := t })

/-- `ctx.createCell(name, type)`: a fresh cell with no ports yet. -/
def createCell (n t : String) : Cell :=
  { name := n, type := t, ports := [], params := [] }

/-! ## Control sets and the equivalence index -/

/-- A control set: the (reset-or-set, enable, clock) net-name triple
shared by a group of flip-flops (the `ControlSet` namedtuple). -/
structure ControlSet where
  rs : Option String
  ena : Option String
  clk : Option String
deriving DecidableEq

/-- `ControlSet.from_cell`: reset and set are merged into the single
`rs` slot via Python `or` (reset takes precedence); unconnected inputs
map to `none`.  The source raises on non-`SB_DFF` cells; the model is
total and only ever applied to flip-flop cells. -/
def ControlSet.from_cell (c : Cell) : ControlSet :=
  { rs := pyOr (c.portNet "R") (c.portNet "S")
    ena := c.portNet "E"
    clk := c.portNet "C" }

/-- The equivalence index: insertion-ordered association list from
control set to the ordered list of member flip-flop cell names. -/
abbrev CsetMap := List (ControlSet × List String)

/-- Dictionary lookup (first binding of the key). -/
def mapLookup (m : CsetMap) (k : ControlSet) : Option (List String) :=
  (m.find? (fun kv => kv.1 = k)).map (fun kv => kv.2)

/-- `dict.setdefault(k, []).append(v)`: extend the first binding of the
key in place, or append a fresh singleton binding at the end. -/
def mapAppend (m : CsetMap) (k : ControlSet) (v : String) : CsetMap :=
  match m with
  | [] => [(k, [v])]
  | (k', vs) :: rest =>
    if k' = k then (k', vs ++ [v]) :: rest else (k', vs) :: mapAppend rest k v

/-- `dict.setdefault(k, []).extend(vs)`: extend the first binding of
the key in place, or append a fresh binding at the end. -/
def mapExtend (m : CsetMap) (k : ControlSet) (vs : List String) : CsetMap :=
  match m with
  | [] => [(k, vs)]
  | (k', l) :: rest =>
    if k' = k then (k', l ++ vs) :: rest else (k', l) :: mapExtend rest k vs

/-- `dict.pop(k)` (the removal part): drop the first binding of the
key. -/
def mapPop (m : CsetMap) (k : ControlSet) : CsetMap :=
  m.eraseP (fun kv => kv.1 = k)

/-- `find_global_nets`: the names of all nets output from `SB_GB`
global buffers.  Computed once at optimizer construction and, in the
current code, never read afterwards. -/
def find_global_nets (nl : Netlist) : List String :=
  (nl.filter (fun c => c.type = "SB_GB")).filterMap
    (fun c => c.portNet "GLOBAL_BUFFER_OUTPUT")

/-- `build_map`: scan every cell, keep the `SB_DFF`-family flip-flops,
and file each one under its control set, preserving discovery order. -/
def build_map (nl : Netlist) : CsetMap :=
  nl.foldl
    (fun m c =>
      if strStartsWith c.type "SB_DFF" then mapAppend m (ControlSet.from_cell c) c.name
      else m)
    []

/-- The member cell names filed under a control set (`cset_map[cset]`;
the source raises on a missing key, the model yields `[]`). -/
def membersOf (cm : CsetMap) (cset : ControlSet) : List String :=
  (mapLookup cm cset).getD []

/-! ## Cost model helpers -/

/-- `_net_name_simplify`: collapse constant nets to their driver type
(`GND` / `VCC`), keep other net names; `none` passes through.  The
source would raise on a driverless net; the model keeps the name. -/
def net_name_simplify (nl : Netlist) (n : Option String) : Option String :=
  match n with
  | none => none
  | some nm =>
    match netDriver nl nm with
    | some (c, _) => if c.type = "GND" ∨ c.type = "VCC" then some c.type else some nm
    | none => some nm

/-- `_unused_port`: a port is unused when unbound or driven by a
constant-zero `GND` cell (a fixed `VCC` is deliberately not counted,
see the source comment). -/
def unused_port (nl : Netlist) (c : Cell) (p : String) : Bool :=
  match c.portNet p with
  | none => true
  | some nm =>
    match netDriver nl nm with
    | some (d, _) => d.type = "GND"
    | none => false

/-- `_cell_has_carry`: whether an `SB_CARRY` user of the LUT's `I1` or
`I2` net consumes the same (simplified) pair of nets on its own
`I0`/`I1` inputs. -/
def cell_has_carry (nl : Netlist) (c : Cell) : Bool :=
  let n1 := c.portNet "I1"
  let n2 := c.portNet "I2"
  let users :=
    (match n1 with | some nm => netUsers nl nm | none => []) ++
    (match n2 with | some nm => netUsers nl nm | none => [])
  let nn1 := net_name_simplify nl n1
  let nn2 := net_name_simplify nl n2
  users.any (fun u =>
    u.1.type = "SB_CARRY" &&
    net_name_simplify nl (u.1.portNet "I0") = nn1 &&
    net_name_simplify nl (u.1.portNet "I1") = nn2)

/-- `_lut_free_ports`: the unused inputs among `I0..I3`, with `I1` and
`I2` dropped when a matched carry pair reserves them. -/
def lut_free_ports (nl : Netlist) (c : Cell) : List String :=
  let fp := (["I0", "I1", "I2", "I3"]).filter (fun p => unused_port nl c p)
  if cell_has_carry nl c then (fp.erase "I1").erase "I2" else fp

/-- Required spare LUT inputs for a conversion:
`n_in = 2 * rm_ena + 1 * rm_rs` (conversion bit 0 removes reset/set,
bit 1 removes enable). -/
def nIn (conv : Nat) : Nat :=
  2 * (if conv &&& 2 ≠ 0 then 1 else 0) + (if conv &&& 1 ≠ 0 then 1 else 0)

/-- The per-member body of the `cost_convert` loop: follow the cell's
`D` input to its driving cell and charge 1 when that driver is an
`SB_LUT4` whose output has no other user and whose free-input count is
below the required spare input count. -/
def costCellStep (nl : Netlist) (n_in : Nat) (cost : Nat) (cn : String) : Nat :=
  match findCell nl cn with
  | none => cost
  | some cell =>
    match cell.portNet "D" with
    | none => cost
    | some dnet =>
      match netDriver nl dnet with
      | none => cost
      | some (driver, _) =>
        if driver.type ≠ "SB_LUT4" then cost
        else if (match driver.portNet "O" with
                  | some onet => (netUsers nl onet).length
                  | none => 0) > 1 then cost
        else if (lut_free_ports nl driver).length < n_in then cost + 1
        else cost

/-- `cost_convert`: number of member flip-flops whose existing LUT
driver is single-user but lacks enough free inputs, i.e. the number of
extra LUTs the conversion would create. -/
def cost_convert (nl : Netlist) (cm : CsetMap) (cset : ControlSet) (conv : Nat) : Nat :=
  (membersOf cm cset).foldl (costCellStep nl (nIn conv)) 0

/-- The flip-flop variants implementing an asynchronous reset or set,
which pin their control set against reset removal. -/
def asyncTypes : List String := ["SB_DFFR", "SB_DFFS", "SB_DFFER", "SB_DFFES"]

/-- The member scan inside `can_convert` that demotes `has_rs` to
`False`: whether some member cell's type variant implements an
asynchronous reset or set. -/
def hasAsyncMember (nl : Netlist) (cm : CsetMap) (cset : ControlSet) : Bool :=
  (membersOf cm cset).any (fun cn =>
    match findCell nl cn with
    | some c => c.type ∈ asyncTypes
    | none => false)

/-- `can_convert`: legality of removing reset/set (`conv` bit 0)
and/or enable (`conv` bit 1) from a control set. -/
def can_convert (nl : Netlist) (cm : CsetMap) (cset : ControlSet) (conv : Nat) : Bool :=
  let rm_rs := conv &&& 1 ≠ 0
  let rm_ena := conv &&& 2 ≠ 0
  let has_ena := cset.ena.isSome
  let has_rs := cset.rs.isSome && !hasAsyncMember nl cm cset
  if rm_rs && !has_rs then false
  else if rm_ena && !has_ena then false
  else if has_rs && (rm_ena && !rm_rs) then false
  else true

/-! ## Truth-table rewrite -/

/-- One iteration of the `_update_lut_init` loop at input combination
`i`: force bit `i` to the reset/set level when the allocated reset
position is set in `i`, then force bit `i` to the self-feedback bit of
`i` when the allocated enable position is clear in `i`. -/
def updateStep (pn_rs : Option Nat) (rs_val : Bool) (pn_ena pn_old : Option Nat)
    (val i : Nat) : Nat :=
  let mask := 1 <<< i
  let val :=
    match pn_rs with
    | some pr =>
      if i &&& (1 <<< pr) ≠ 0 then
        if rs_val then val ||| mask else val &&& (65535 ^^^ mask)
      else val
    | none => val
  match pn_ena with
  | some pe =>
    if i &&& (1 <<< pe) = 0 then
      if i &&& (1 <<< pn_old.getD 0) ≠ 0 then val ||| mask
      else val &&& (65535 ^^^ mask)
    else val
  | none => val

/-- The integer core of `_update_lut_init`: the loop over all 16 input
combinations.  (The source reads `pn_old` only when `pn_ena` is set;
callers always provide the two together.) -/
def updateVal (val : Nat) (pn_rs : Option Nat) (rs_val : Bool)
    (pn_ena pn_old : Option Nat) : Nat :=
  (List.range 16).foldl (fun v i => updateStep pn_rs rs_val pn_ena pn_old v i) val

/-- `_update_lut_init`: parse the binary `LUT_INIT` string, run the
bit-level rewrite, format the result back to a 16-character binary
string. -/
def update_lut_init (val : String) (pn_rs : Option Nat) (rs_val : Bool)
    (pn_ena pn_old : Option Nat) : String :=
  formatBin16 (updateVal (parseBin val) pn_rs rs_val pn_ena pn_old)

/-! ## Applying a conversion (`exec_convert`) -/

/-- Bit position encoded in a LUT input port name (`int(p[1:])`). -/
def portNum (p : String) : Nat :=
  (p.data.drop 1).foldl (fun a c => 10 * a + (c.toNat - 48)) 0

/-- The fresh pass-through LUT inserted in front of a flip-flop whose
driver cannot absorb the conversion: inputs `I0..I3`, output `O`, and
`LUT_INIT` passing input `I3` through. -/
def freshLut (n : String) : Cell :=
  (((((createCell n "SB_LUT4").addInput "I0").addInput "I1").addInput
      "I2").addInput "I3" |>.addOutput "O").setParam "LUT_INIT" "1111111100000000"

/-- The allocation-and-rewrite tail of the `exec_convert` per-cell
body: pop ports from the free list (most recently free first), wire
the removed reset/set and enable/feedback signals to them, and rewrite
the target LUT's truth table. -/
def allocRewrite (nl : Netlist) (cset : ControlSet) (rm_rs rm_ena set_reset : Bool)
    (cn tgt : String) (fp : List String) : Netlist :=
  let st1 : Option Nat × Netlist × List String :=
    if rm_rs then
      match popLast fp with
      | (some p_rs, fp') =>
        (some (portNum p_rs),
         connectPort (disconnectPort nl tgt p_rs) (cset.rs.getD "") tgt p_rs,
         fp')
      | (none, fp') => (none, nl, fp')
    else (none, nl, fp)
  let pn_rs := st1.1
  let nl := st1.2.1
  let fp := st1.2.2
  let st2 : Option Nat × Option Nat × Netlist :=
    if rm_ena then
      match popLast fp with
      | (some p_ena, fp') =>
        match popLast fp' with
        | (some p_old, _) =>
          let nl := disconnectPort (disconnectPort nl tgt p_ena) tgt p_old
          let nl := connectPort nl (cset.ena.getD "") tgt p_ena
          let qnet := ((findCell nl cn).bind (fun c => c.portNet "Q")).getD ""
          (some (portNum p_ena), some (portNum p_old), connectPort nl qnet tgt p_old)
        | (none, _) => (none, none, nl)
      | (none, _) => (none, none, nl)
    else (none, none, nl)
  let pn_ena := st2.1
  let pn_old := st2.2.1
  let nl := st2.2.2
  let init0 := ((findCell nl tgt).bind (fun c => c.getParam "LUT_INIT")).getD ""
  updateCell nl tgt (fun c =>
    c.setParam "LUT_INIT" (update_lut_init init0 pn_rs set_reset pn_ena pn_old))

/-- The `exec_convert` loop body for one member flip-flop: disconnect
the removed control ports, retype the cell, pick (or insert) the
target LUT, then allocate inputs and rewrite its truth table. -/
def execConvertCell (cset : ControlSet) (rm_rs rm_ena : Bool) (n_in : Nat)
    (nl : Netlist) (cn : String) : Netlist :=
  match findCell nl cn with
  | none => nl
  | some cell0 =>
    let t0 := cell0.type
    let set_reset := strContains t0 "SS"
    let nl := if rm_rs then disconnectPort (disconnectPort nl cn "R") cn "S" else nl
    let t1 := if rm_rs then strReplace (strReplace t0 "SR" "") "SS" "" else t0
    let nl := if rm_ena then disconnectPort nl cn "E" else nl
    let t2 := if rm_ena then strReplace t1 "E" "" else t1
    let nl := setCellType nl cn t2
    let dnet := cell0.portNet "D"
    let driver := dnet.bind (fun n => netDriver nl n)
    let fp0 : List String :=
      match driver with
      | some (dc, _) =>
        if dc.type = "SB_LUT4" &&
            (match dc.portNet "O" with
             | some onet => (netUsers nl onet).length == 1
             | none => false) then
          lut_free_ports nl dc
        else []
      | none => []
    if fp0.length < n_in then
      let lutName := cn ++ "_conv"
      let netName := cn ++ "_net"
      let nl := nl ++ [freshLut lutName]
      let nl := disconnectPort nl cn "D"
      let nl := match dnet with
        | some old => connectPort nl old lutName "I3"
        | none => nl
      let nl := connectPort nl netName lutName "O"
      let nl := connectPort nl netName cn "D"
      allocRewrite nl cset rm_rs rm_ena set_reset cn lutName ["I0", "I1", "I2"]
    else
      let tgtName := match driver with
        | some (dc, _) => dc.name
        | none => cn
      allocRewrite nl cset rm_rs rm_ena set_reset cn tgtName fp0

/-- `exec_convert`: apply a conversion (remove reset/set and/or
enable) to every member flip-flop of a control set, returning the
mutated netlist.  The equivalence index itself is updated by the
caller (`optimize`). -/
def exec_convert (nl : Netlist) (cm : CsetMap) (cset : ControlSet) (conv : Nat) : Netlist :=
  let rm_rs := decide (conv &&& 1 ≠ 0)
  let rm_ena := decide (conv &&& 2 ≠ 0)
  let n_in := nIn conv
  (membersOf cm cset).foldl (fun nl cn => execConvertCell cset rm_rs rm_ena n_in nl cn) nl

/-! ## Merge search (`optimize`) -/

/-- The candidate target signature of a conversion: the removed fields
nulled, the clock kept. -/
def convTarget (cset : ControlSet) (rm_rs rm_ena : Bool) : ControlSet :=
  { rs := if rm_rs then none else cset.rs
    ena := if rm_ena then none else cset.ena
    clk := cset.clk }

/-- One evaluated conversion option: target signature, conversion
code, total cost, projected group size, the control sets folded in. -/
structure Candidate where
  tgt : ControlSet
  conv : Nat
  cost : Nat
  cell_in_group : Nat
  cset_in_group : List ControlSet
deriving DecidableEq

/-- One step of the alternative-set scan: skip well-used sets, skip
illegal conversions, and fold a matching target signature into the
running group. -/
def scanStep (nl : Netlist) (cm : CsetMap) (threshold conv : Nat)
    (rm_rs rm_ena : Bool) (tgt : ControlSet)
    (acc : Nat × List ControlSet) (alt : ControlSet) : Nat × List ControlSet :=
  let alt_cells := membersOf cm alt
  let alt_tgt := convTarget alt rm_rs rm_ena
  if alt_cells.length ≥ threshold then acc
  else if !can_convert nl cm alt conv then acc
  else if alt_tgt = tgt then (acc.1 + alt_cells.length, acc.2 ++ [alt])
  else acc

/-- The alternative-set scan of the merge search (source lines
382-404): when the target signature retains a truthy reset or enable
field, every other still-unprocessed, below-threshold, independently
legal control set mapping to the same target contributes its members
to the projected group. -/
def groupScan (nl : Netlist) (cm : CsetMap) (tp : List ControlSet) (threshold : Nat)
    (conv : Nat) (rm_rs rm_ena : Bool) (tgt : ControlSet)
    (start : Nat × List ControlSet) : Nat × List ControlSet :=
  if pyTruthy tgt.rs || pyTruthy tgt.ena then
    tp.foldl (scanStep nl cm threshold conv rm_rs rm_ena tgt) start
  else start

/-- Projected group size and grouped control sets for one conversion
option of the control set under consideration: its own members, plus
any bucket already filed under the target signature, plus the
alternative-set scan. -/
def projectedGroup (nl : Netlist) (cm : CsetMap) (tp : List ControlSet) (threshold : Nat)
    (cset : ControlSet) (conv : Nat) : Nat × List ControlSet :=
  let rm_rs := decide (conv &&& 1 ≠ 0)
  let rm_ena := decide (conv &&& 2 ≠ 0)
  let tgt := convTarget cset rm_rs rm_ena
  let base := (membersOf cm cset).length +
    (match mapLookup cm tgt with
     | some l => l.length
     | none => 0)
  groupScan nl cm tp threshold conv rm_rs rm_ena tgt (base, [cset])

/-- Evaluate one conversion option: `none` when illegal or when the
projected group does not reach the threshold, otherwise the recorded
candidate with its summed cost. -/
def evalConv (nl : Netlist) (cm : CsetMap) (tp : List ControlSet) (threshold : Nat)
    (cset : ControlSet) (conv : Nat) : Option Candidate :=
  if !can_convert nl cm cset conv then none
  else
    let rm_rs := decide (conv &&& 1 ≠ 0)
    let rm_ena := decide (conv &&& 2 ≠ 0)
    let tgt := convTarget cset rm_rs rm_ena
    let pg := projectedGroup nl cm tp threshold cset conv
    if pg.1 < threshold then none
    else
      some { tgt := tgt, conv := conv,
             cost := ((pg.2).map (fun x => cost_convert nl cm x conv)).sum,
             cell_in_group := pg.1, cset_in_group := pg.2 }

/-- All surviving conversion options for a control set, for
`conv = 1, 2, 3` in order (`possible_tgt` in the source). -/
def possibleTgts (nl : Netlist) (cm : CsetMap) (tp : List ControlSet) (threshold : Nat)
    (cset : ControlSet) : List Candidate :=
  ([1, 2, 3]).filterMap (fun conv => evalConv nl cm tp threshold cset conv)

/-- Candidate preference: ascending cost per removed control set
(compared exactly by cross-multiplication, standing in for the Python
float division), ties broken by the larger projected group. -/
def candLE (a b : Candidate) : Bool :=
  let l := a.cost * b.cset_in_group.length
  let r := b.cost * a.cset_in_group.length
  if l ≠ r then l < r else b.cell_in_group ≤ a.cell_in_group

/-- The worklist sort key: the three net names with `none` (and, per
Python `or`, the empty string) mapped to the empty string. -/
def sortKey (c : ControlSet) : String × String × String :=
  (c.rs.getD "", c.ena.getD "", c.clk.getD "")

/-- Lexicographic comparison of worklist sort keys. -/
def keyLE (a b : ControlSet) : Bool :=
  let x := sortKey a
  let y := sortKey b
  if x.1 ≠ y.1 then strLT x.1 y.1
  else if x.2.1 ≠ y.2.1 then strLT x.2.1 y.2.1
  else strLE x.2.2 y.2.2

/-- Diagnostic output events, standing in for the console prints. -/
inductive LogEntry where
  | cand (cost cig : Nat) (tgt : ControlSet) (group : List (Nat × ControlSet))
  | sep
  | summary (cost cnt_before cnt_after : Nat)
  | statsDump (m : CsetMap)
deriving DecidableEq

/-- The debug dump of the sorted candidate list for one worklist
element: each candidate with, per grouped control set, its current
member count. -/
def debugEntries (cm : CsetMap) (cands : List Candidate) : List LogEntry :=
  (cands.map (fun c =>
    LogEntry.cand c.cost c.cell_in_group c.tgt
      (c.cset_in_group.map (fun x => ((membersOf cm x).length, x))))) ++ [LogEntry.sep]

/-- Applying the winning candidate to one grouped control set: convert
its cells, drop it from the worklist, and move its bucket under the
target signature. -/
def applyOne (conv : Nat) (tgt : ControlSet)
    (acc : Netlist × CsetMap × List ControlSet) (cset_cur : ControlSet) :
    Netlist × CsetMap × List ControlSet :=
  let nl := exec_convert acc.1 acc.2.1 cset_cur conv
  let tp := (acc.2.2).erase cset_cur
  let cells_cur := membersOf acc.2.1 cset_cur
  let cm := mapExtend (mapPop acc.2.1 cset_cur) tgt cells_cur
  (nl, cm, tp)

/-- The `while to_process` loop of `optimize`, structured on a fuel
argument; `optimize` supplies `to_process.length` fuel, which is
enough since every iteration shortens the worklist. -/
def optimizeLoop (threshold : Nat) (debug : Bool) :
    Nat → Netlist → CsetMap → List ControlSet → Nat → List LogEntry →
    Netlist × CsetMap × Nat × List LogEntry
  | 0, nl, cm, _, cost, log => (nl, cm, cost, log)
  | fuel + 1, nl, cm, tp, cost, log =>
    match tp.getLast? with
    | none => (nl, cm, cost, log)
    | some cset =>
      let tp' := tp.dropLast
      let cells := membersOf cm cset
      if cells.length ≥ threshold then
        optimizeLoop threshold debug fuel nl cm tp' cost log
      else
        match sortBy candLE (possibleTgts nl cm tp' threshold cset) with
        | [] => optimizeLoop threshold debug fuel nl cm tp' cost log
        | chosen :: restCands =>
          let log := if debug then log ++ debugEntries cm (chosen :: restCands) else log
          let app := (chosen.cset_in_group).foldl (applyOne chosen.conv chosen.tgt)
            (nl, cm, tp')
          optimizeLoop threshold debug fuel app.1 app.2.1 app.2.2 (cost + chosen.cost) log

/-- Result of one optimizer run: final netlist and index, total cost,
before/after distinct-control-set counts, diagnostic log. -/
structure OptResult where
  nl : Netlist
  cset_map : CsetMap
  total_cost : Nat
  cnt_before : Nat
  cnt_after : Nat
  log : List LogEntry
deriving DecidableEq

/-- The optimizer object: netlist handle, global-buffer net names,
equivalence index. -/
structure ControlSetOptimizer where
  nl : Netlist
  global_nets : List String
  cset_map : CsetMap
deriving DecidableEq

/-- `ControlSetOptimizer.__init__`. -/
def ControlSetOptimizer.init (nl : Netlist) : ControlSetOptimizer :=
  { nl := nl, global_nets := find_global_nets nl, cset_map := build_map nl }

/-- `optimize`: sort the control sets for reproducibility, then pop
and greedily consolidate under-threshold sets until the worklist is
empty, reporting the total cost and the before/after counts. -/
def ControlSetOptimizer.optimize (self : ControlSetOptimizer)
    (threshold : Nat) (debug : Bool) : OptResult :=
  let tp := sortBy keyLE (self.cset_map.map (fun kv => kv.1))
  let cnt_before := self.cset_map.length
  let r := optimizeLoop threshold debug tp.length self.nl self.cset_map tp 0 []
  { nl := r.1, cset_map := r.2.1, total_cost := r.2.2.1
    cnt_before := cnt_before, cnt_after := r.2.1.length
    log := r.2.2.2 ++ [LogEntry.summary r.2.2.1 cnt_before r.2.1.length] }

/-- `ControlSetOptimizer.can_convert`, reading the optimizer's own
netlist and index. -/
def ControlSetOptimizer.canConvert (self : ControlSetOptimizer)
    (cset : ControlSet) (conv : Nat) : Bool :=
  can_convert self.nl self.cset_map cset conv

/-- `run_opt`: the module entry point.  Note the source's first
statement unconditionally overwrites the `debug` parameter with
`True`, then appends the `stats()` dump when (the overwritten) `debug`
is set. -/
def run_opt (nl : Netlist) (threshold : Nat) (debug : Bool) : OptResult :=
  let debug := true
  let opt := ControlSetOptimizer.init nl
  let r := opt.optimize threshold debug
  if debug then { r with log := r.log ++ [LogEntry.statsDump r.cset_map] } else r

/-! ## Specification-side definitions

These definitions follow the wording of the specification (not the
source) and are compared against the source-derived definitions
above. -/

/-- Total member-cell count over all buckets of an equivalence index. -/
def bucketSum (m : CsetMap) : Nat :=
  (m.map (fun kv => kv.2.length)).sum

/-- Modelled from the spec, truth-table rewrite rule (§4.6): the final
output bit at input combination `i`, as a function of the original
output bit `b` — the reset-force edit applied first, the enable-hold
edit applied after it. -/
def bitFun (pn_rs : Option Nat) (rs_val : Bool) (pn_ena pn_old : Option Nat)
    (i : Nat) (b : Bool) : Bool :=
  let b1 :=
    match pn_rs with
    | some pr => if i.testBit pr then rs_val else b
    | none => b
  match pn_ena with
  | some pe => if i.testBit pe then b1 else i.testBit (pn_old.getD 0)
  | none => b1

/-- The source-side charged-member predicate extracted from the
`cost_convert` loop body: the `D` driver is an `SB_LUT4`, its output
net has at most one user, and its free-input count is below `n_in`. -/
def chargedAt (nl : Netlist) (n_in : Nat) (cn : String) : Bool :=
  match findCell nl cn with
  | none => false
  | some cell =>
    match cell.portNet "D" with
    | none => false
    | some dnet =>
      match netDriver nl dnet with
      | none => false
      | some (driver, _) =>
        if driver.type ≠ "SB_LUT4" then false
        else if (match driver.portNet "O" with
                  | some onet => (netUsers nl onet).length
                  | none => 0) > 1 then false
        else decide ((lut_free_ports nl driver).length < n_in)

/-- Following the claim's words: a member flip-flop is charged when
its `D` driver is a lookup table with exactly one consumer of its
output and fewer free inputs than the conversion's required spare
inputs. -/
def spec_charged (nl : Netlist) (conv : Nat) (cn : String) : Bool :=
  match findCell nl cn with
  | none => false
  | some cell =>
    match cell.portNet "D" with
    | none => false
    | some dnet =>
      match netDriver nl dnet with
      | none => false
      | some (driver, _) =>
        decide (driver.type = "SB_LUT4") &&
        (match driver.portNet "O" with
          | some onet => (netUsers nl onet).length
          | none => 0) == 1 &&
        decide ((lut_free_ports nl driver).length < nIn conv)

/-- Netlist sanity for a member cell: when its `D` driver is a lookup
table, that LUT's output net has at least one consumer (the flip-flop
itself, in any consistent netlist). -/
def lutUserOk (nl : Netlist) (cn : String) : Bool :=
  match findCell nl cn with
  | none => true
  | some cell =>
    match cell.portNet "D" with
    | none => true
    | some dnet =>
      match netDriver nl dnet with
      | none => true
      | some (driver, _) =>
        if driver.type = "SB_LUT4" then
          match driver.portNet "O" with
          | some onet => decide (1 ≤ (netUsers nl onet).length)
          | none => false
        else true

/-- Whether a member flip-flop's `D` input is driven by anything other
than a lookup table (missing cells / dangling nets count as "not a
lookup table"). -/
def notLutDriven (nl : Netlist) (cn : String) : Bool :=
  match findCell nl cn with
  | none => true
  | some cell =>
    match cell.portNet "D" with
    | none => true
    | some dnet =>
      match netDriver nl dnet with
      | none => true
      | some (driver, _) => decide (driver.type ≠ "SB_LUT4")

/-- Following the claim's words: the total member count contributed by
the still-unprocessed, below-threshold, independently legal control
sets whose conversion yields the same target signature. -/
def spec_alt_sum (nl : Netlist) (cm : CsetMap) (tp : List ControlSet) (threshold : Nat)
    (conv : Nat) (tgt : ControlSet) : Nat :=
  ((tp.filter (fun alt =>
      decide ((membersOf cm alt).length < threshold) &&
      can_convert nl cm alt conv &&
      decide (convTarget alt (decide (conv &&& 1 ≠ 0)) (decide (conv &&& 2 ≠ 0)) = tgt))).map
    (fun alt => (membersOf cm alt).length)).sum

/-- Following the claim's words (C7): projected group size = own
member count + the bucket already filed under the target signature +
the contribution of every other matching unprocessed control set,
unconditionally. -/
def spec_projected_size (nl : Netlist) (cm : CsetMap) (tp : List ControlSet)
    (threshold : Nat) (cset : ControlSet) (conv : Nat) : Nat :=
  let tgt := convTarget cset (decide (conv &&& 1 ≠ 0)) (decide (conv &&& 2 ≠ 0))
  (membersOf cm cset).length + (membersOf cm tgt).length +
    spec_alt_sum nl cm tp threshold conv tgt

/-! ## Concrete scenario netlists -/

/-- A connected input port. -/
def inP (p n : String) : PortB := ⟨p, PDir.input, some n⟩

/-- A connected output port. -/
def outP (p n : String) : PortB := ⟨p, PDir.output, some n⟩

/-- A non-LUT source cell driving one net. -/
def srcCell (n o : String) : Cell := ⟨n, "SRC", [outP "O" o], []⟩

/-- A synchronous-reset flip-flop clocked by `c`, reset by `x`. -/
def ffSR (n d q : String) : Cell :=
  ⟨n, "SB_DFFSR", [inP "C" "c", inP "R" "x", inP "D" d, outP "Q" q], []⟩

/-- A plain flip-flop clocked by `c`. -/
def ffPlain (n d q : String) : Cell :=
  ⟨n, "SB_DFF", [inP "C" "c", inP "D" d, outP "Q" q], []⟩

/-- Control set A of the end-to-end scenario: reset `x`, no enable,
clock `c`. -/
def csA : ControlSet := ⟨some "x", none, some "c"⟩

/-- Control set B of the end-to-end scenario: no reset, no enable,
clock `c`. -/
def csB : ControlSet := ⟨none, none, some "c"⟩

/-- The end-to-end scenario netlist: control set A with 2 synchronous
reset flip-flops, control set B with 3 plain flip-flops, every `D`
input driven by a non-LUT source cell. -/
def nl1 : Netlist :=
  [srcCell "sa1" "dA1", srcCell "sa2" "dA2",
   srcCell "sb1" "dB1", srcCell "sb2" "dB2", srcCell "sb3" "dB3",
   ffSR "fa1" "dA1" "qA1", ffSR "fa2" "dA2" "qA2",
   ffPlain "fb1" "dB1" "qB1", ffPlain "fb2" "dB2" "qB2", ffPlain "fb3" "dB3" "qB3"]

/-- Variant of the scenario with 4 plain flip-flops in control set B,
so that B is at the threshold yet becomes a merge target. -/
def nl2 : Netlist :=
  [srcCell "sa1" "dA1", srcCell "sa2" "dA2",
   srcCell "sb1" "dB1", srcCell "sb2" "dB2", srcCell "sb3" "dB3", srcCell "sb4" "dB4",
   ffSR "fa1" "dA1" "qA1", ffSR "fa2" "dA2" "qA2",
   ffPlain "fb1" "dB1" "qB1", ffPlain "fb2" "dB2" "qB2", ffPlain "fb3" "dB3" "qB3",
   ffPlain "fb4" "dB4" "qB4"]

/-- A synchronous-reset flip-flop clocked by `c`, reset by `y`. -/
def ffSRy (n d q : String) : Cell :=
  ⟨n, "SB_DFFSR", [inP "C" "c", inP "R" "y", inP "D" d, outP "Q" q], []⟩

/-- Two one-member control sets (resets `x` and `y`, same clock) whose
reset-only removals map to the same all-null target signature. -/
def nl3 : Netlist := [ffSR "f1" "d1" "q1", ffSRy "f2" "d2" "q2"]

/-- The control set of the second flip-flop of `nl3`: reset `y`, no
enable, clock `c`. -/
def csY : ControlSet := ⟨some "y", none, some "c"⟩

/-- A one-flip-flop netlist whose member has both a synchronous
reset/set and an enable (type `SB_DFFESR`). -/
def nlE : Netlist :=
  [⟨"fe1", "SB_DFFESR", [inP "C" "c", inP "R" "x", inP "E" "e", inP "D" "d1", outP "Q" "q1"], []⟩]

/-- The control set of `nlE`: reset `x`, enable `e`, clock `c`. -/
def csE : ControlSet := ⟨some "x", some "e", some "c"⟩

/-- A one-flip-flop netlist whose member has an asynchronous reset
(type `SB_DFFR`). -/
def nlR : Netlist :=
  [⟨"fr1", "SB_DFFR", [inP "C" "c", inP "R" "x", inP "D" "d1", outP "Q" "q1"], []⟩]

/-- A netlist whose single flip-flop is driven by a fully-occupied
single-user `SB_LUT4`, so any conversion charges one extra LUT. -/
def nlW : Netlist :=
  [srcCell "wa" "a", srcCell "wb" "b", srcCell "wc" "cc", srcCell "wd" "dd",
   ⟨"l1", "SB_LUT4",
    [inP "I0" "a", inP "I1" "b", inP "I2" "cc", inP "I3" "dd", outP "O" "d1"],
    [("LUT_INIT", "0000000000000001")]⟩,
   ffSR "fw1" "d1" "qw1"]

/-! ## Bit-level facts about the truth-table rewrite -/

theorem and_shift_ne (i p : Nat) : (i &&& (1 <<< p) ≠ 0) ↔ i.testBit p = true := by
  rw [Nat.one_shiftLeft, Nat.and_two_pow]
  cases h : i.testBit p <;> simp [h]

theorem and_shift_eq (i p : Nat) : (i &&& (1 <<< p) = 0) ↔ i.testBit p = false := by
  rw [Nat.one_shiftLeft, Nat.and_two_pow]
  cases h : i.testBit p <;> simp [h]

theorem testBit_lor_shift (v i j : Nat) :
    (v ||| (1 <<< i)).testBit j = (v.testBit j || decide (i = j)) := by
  simp [Nat.testBit_lor, Nat.one_shiftLeft, Nat.testBit_two_pow]

theorem testBit_land_clear (v i j : Nat) (hj : j < 16) :
    (v &&& (65535 ^^^ (1 <<< i))).testBit j = (v.testBit j && !(decide (i = j))) := by
  have h : (65535 : Nat) = 2 ^ 16 - 1 := by norm_num
  rw [Nat.testBit_land, Nat.testBit_xor, Nat.one_shiftLeft, h,
    Nat.testBit_two_pow_sub_one, Nat.testBit_two_pow]
  simp [hj]

theorem testBit_set_self (v i : Nat) : (v ||| (1 <<< i)).testBit i = true := by
  rw [testBit_lor_shift]; simp

theorem testBit_clear_self (v i : Nat) (hi : i < 16) :
    (v &&& (65535 ^^^ (1 <<< i))).testBit i = false := by
  rw [testBit_land_clear v i i hi]; simp

theorem testBit_set_other (v i j : Nat) (h : i ≠ j) :
    (v ||| (1 <<< i)).testBit j = v.testBit j := by
  rw [testBit_lor_shift]; simp [h]

theorem testBit_clear_other (v i j : Nat) (hj : j < 16) (h : i ≠ j) :
    (v &&& (65535 ^^^ (1 <<< i))).testBit j = v.testBit j := by
  rw [testBit_land_clear v i j hj]; simp [h]

theorem updateStep_testBit_self (pn_rs : Option Nat) (rs_val : Bool)
    (pn_ena pn_old : Option Nat) (v i : Nat) (hi : i < 16) :
    (updateStep pn_rs rs_val pn_ena pn_old v i).testBit i
      = bitFun pn_rs rs_val pn_ena pn_old i (v.testBit i) := by
  rcases pn_rs with _ | pr <;> rcases pn_ena with _ | pe <;>
    simp only [updateStep, bitFun, and_shift_ne, and_shift_eq] <;>
    (try split_ifs) <;>
    simp_all only [testBit_set_self, testBit_clear_self, testBit_set_other,
      testBit_clear_other, Bool.not_eq_true] <;>
    simp_all

theorem updateStep_testBit_other (pn_rs : Option Nat) (rs_val : Bool)
    (pn_ena pn_old : Option Nat) (v i j : Nat) (hj : j < 16) (hne : i ≠ j) :
    (updateStep pn_rs rs_val pn_ena pn_old v i).testBit j = v.testBit j := by
  have hs : ∀ w : Nat, (w ||| (1 <<< i)).testBit j = w.testBit j :=
    fun w => testBit_set_other w i j hne
  have hc : ∀ w : Nat, (w &&& (65535 ^^^ (1 <<< i))).testBit j = w.testBit j :=
    fun w => testBit_clear_other w i j hj hne
  rcases pn_rs with _ | pr <;> rcases pn_ena with _ | pe <;>
    simp only [updateStep] <;>
    (try split_ifs) <;>
    simp only [hs, hc]

theorem bitFun_idem (pn_rs : Option Nat) (rs_val : Bool) (pn_ena pn_old : Option Nat)
    (i : Nat) (b : Bool) :
    bitFun pn_rs rs_val pn_ena pn_old i (bitFun pn_rs rs_val pn_ena pn_old i b)
      = bitFun pn_rs rs_val pn_ena pn_old i b := by
  rcases pn_rs with _ | pr <;> rcases pn_ena with _ | pe <;>
    simp only [bitFun] <;> split_ifs <;> rfl

theorem foldl_updateStep_testBit (pn_rs : Option Nat) (rs_val : Bool)
    (pn_ena pn_old : Option Nat) (l : List Nat) :
    ∀ (v i : Nat), i < 16 →
      ((l.foldl (fun v j => updateStep pn_rs rs_val pn_ena pn_old v j) v).testBit i)
        = if i ∈ l then bitFun pn_rs rs_val pn_ena pn_old i (v.testBit i)
          else v.testBit i := by
  induction l with
  | nil => intro v i _; simp
  | cons j l ih =>
    intro v i hi
    simp only [List.foldl_cons]
    rw [ih _ i hi]
    by_cases hj : j = i
    · subst hj
      rw [updateStep_testBit_self _ _ _ _ _ _ hi]
      by_cases hmem : j ∈ l <;> simp [hmem, bitFun_idem]
    · rw [updateStep_testBit_other _ _ _ _ _ _ _ hi hj]
      have hmem : (i ∈ j :: l) ↔ (i ∈ l) := by
        constructor
        · intro h
          rcases List.mem_cons.mp h with h' | h'
          · exact absurd h'.symm hj
          · exact h'
        · intro h
          exact List.mem_cons_of_mem _ h
      by_cases hil : i ∈ l
      · rw [if_pos hil, if_pos (hmem.mpr hil)]
      · rw [if_neg hil, if_neg (fun h => hil (hmem.mp h))]

theorem updateVal_testBit (val : Nat) (pn_rs : Option Nat) (rs_val : Bool)
    (pn_ena pn_old : Option Nat) (i : Nat) (hi : i < 16) :
    (updateVal val pn_rs rs_val pn_ena pn_old).testBit i
      = bitFun pn_rs rs_val pn_ena pn_old i (val.testBit i) := by
  unfold updateVal
  rw [foldl_updateStep_testBit pn_rs rs_val pn_ena pn_old (List.range 16) val i hi]
  simp [List.mem_range, hi]

/-! ## Claim theorems -/

/-- C3: for a reset/set input allocated at bit position `p` (and no
enable edit), every input combination `i` with bit `p` set yields the
asserted level (`rs_val`: `true` for set, `false` for reset), every
`i` with bit `p` clear keeps the original table's bit; in particular
table `1010101010101010` with reset semantics at position 0 rewrites
to `0000000000000000`. -/
theorem claim_C3 : ∀ (val p : Nat) (rs_val : Bool) (i : Nat), p < 4 → i < 16 →
    ((i.testBit p = true →
        (updateVal val (some p) rs_val none none).testBit i = rs_val) ∧
     (i.testBit p = false →
        (updateVal val (some p) rs_val none none).testBit i = val.testBit i)) ∧
    update_lut_init "1010101010101010" (some 0) false none none
      = "0000000000000000" := by
  intro val p rs_val i _ hi
  refine ⟨⟨fun h => ?_, fun h => ?_⟩, by decide⟩
  · rw [updateVal_testBit _ _ _ _ _ _ hi]; simp [bitFun, h]
  · rw [updateVal_testBit _ _ _ _ _ _ hi]; simp [bitFun, h]

theorem claim_C3_witness :
    (updateVal 43690 (some 0) false none none).testBit 3 = false ∧
    (updateVal 43690 (some 0) false none none).testBit 2 = Nat.testBit 43690 2 ∧
    update_lut_init "1010101010101010" (some 0) false none none
      = "0000000000000000" := by
  refine ⟨?_, ?_, ?_⟩
  · exact (claim_C3 43690 0 false 3 (by decide) (by decide)).1.1 (by decide)
  · exact (claim_C3 43690 0 false 2 (by decide) (by decide)).1.2 (by decide)
  · exact (claim_C3 43690 0 false 0 (by decide) (by decide)).2

/-- C4: with an enable input allocated at position `pe` and
self-feedback at `po`, every `i` with bit `pe` clear yields bit `po`
of `i` (hold), regardless of any reset edit (the enable-hold edit is
applied after the reset-force edit); enable-only rewrites leave bits
with `pe` set unchanged, and combined rewrites give bits with `pe` set
the reset-force result. -/
theorem claim_C4 : ∀ (val : Nat) (pn_rs : Option Nat) (rs_val : Bool) (pe po i : Nat),
    pe < 4 → po < 4 → i < 16 →
    (i.testBit pe = false →
        (updateVal val pn_rs rs_val (some pe) (some po)).testBit i = i.testBit po) ∧
    (i.testBit pe = true →
        (updateVal val none rs_val (some pe) (some po)).testBit i = val.testBit i) ∧
    (∀ pr, i.testBit pr = true → i.testBit pe = false →
        (updateVal val (some pr) rs_val (some pe) (some po)).testBit i = i.testBit po) ∧
    (∀ pr, i.testBit pe = true →
        (updateVal val (some pr) rs_val (some pe) (some po)).testBit i
          = (if i.testBit pr then rs_val else val.testBit i)) := by
  intro val pn_rs rs_val pe po i _ _ hi
  refine ⟨fun h => ?_, fun h => ?_, fun pr _ h => ?_, fun pr h => ?_⟩ <;>
    rw [updateVal_testBit _ _ _ _ _ _ hi] <;>
    rcases pn_rs with _ | pr' <;>
    simp [bitFun, h]

theorem claim_C4_witness :
    (updateVal 65280 none false (some 0) (some 3)).testBit 8 = Nat.testBit 8 3 ∧
    (updateVal 65280 none false (some 0) (some 3)).testBit 9 = Nat.testBit 65280 9 ∧
    (updateVal 65280 (some 1) false (some 0) (some 3)).testBit 10 = Nat.testBit 10 3 ∧
    (updateVal 65280 (some 1) false (some 0) (some 3)).testBit 3
      = (if Nat.testBit 3 1 then false else Nat.testBit 65280 3) := by
  refine ⟨?_, ?_, ?_, ?_⟩
  · exact (claim_C4 65280 none false 0 3 8 (by decide) (by decide) (by decide)).1 (by decide)
  · exact (claim_C4 65280 none false 0 3 9 (by decide) (by decide) (by decide)).2.1 (by decide)
  · exact (claim_C4 65280 (some 1) false 0 3 10 (by decide) (by decide)
      (by decide)).2.2.1 1 (by decide) (by decide)
  · exact (claim_C4 65280 (some 1) false 0 3 3 (by decide) (by decide)
      (by decide)).2.2.2 1 (by decide)

/-- C1: the end-to-end scenario.  With control sets A (reset `x`,
clock `c`, 2 members) and B (clock `c` only, 3 members), threshold 4
and no LUT drivers, the only surviving option for A is reset-only
removal targeting exactly B's signature with projected group size 5 at
cost 0; the run folds A's cells into B's bucket, reduces the
distinct-control-set count from 2 to 1 and reports total cost 0. -/
theorem claim_C1 :
    possibleTgts nl1 (build_map nl1) [csB] 4 csA
      = [⟨csB, 1, 0, 5, [csA]⟩] ∧
    mapLookup (build_map nl1) csB = some ["fb1", "fb2", "fb3"] ∧
    ((ControlSetOptimizer.init nl1).optimize 4 false).cnt_before = 2 ∧
    ((ControlSetOptimizer.init nl1).optimize 4 false).cnt_after = 1 ∧
    ((ControlSetOptimizer.init nl1).optimize 4 false).total_cost = 0 ∧
    mapLookup ((ControlSetOptimizer.init nl1).optimize 4 false).cset_map csB
      = some ["fb1", "fb2", "fb3", "fa1", "fa2"] := by
  refine ⟨by decide, by decide, by decide, by decide, by decide, by decide⟩

/-- C9: neither the legality check nor the whole optimizer run reads
the global-distribution-net set: replacing the `find_global_nets`
result by any other set of net names changes nothing (the intended
global-net exemption is commented out and hence a no-op). -/
theorem claim_C9 : ∀ (nl : Netlist) (cm : CsetMap) (g g' : List String)
    (cset : ControlSet) (conv threshold : Nat) (d : Bool),
    ControlSetOptimizer.canConvert ⟨nl, g, cm⟩ cset conv
      = ControlSetOptimizer.canConvert ⟨nl, g', cm⟩ cset conv ∧
    ControlSetOptimizer.optimize ⟨nl, g, cm⟩ threshold d
      = ControlSetOptimizer.optimize ⟨nl, g', cm⟩ threshold d ∧
    ControlSetOptimizer.canConvert { ControlSetOptimizer.init nl with global_nets := g }
        cset conv
      = ControlSetOptimizer.canConvert (ControlSetOptimizer.init nl) cset conv := by
  intro nl cm g g' cset conv threshold d
  exact ⟨rfl, rfl, rfl⟩

/-- C10: the `debug` parameter of `run_opt` is dead: it is overwritten
with `True` before use, so every call behaves as if `debug` were
`True`, with identical netlist result and identical diagnostic
output. -/
theorem claim_C10 : ∀ (nl : Netlist) (threshold : Nat) (d : Bool),
    run_opt nl threshold d = run_opt nl threshold true := by
  intro nl threshold d
  rfl

/-- C5: legality.  A set with both reset/set and enable connected and
no asynchronous-variant member rejects enable-only removal and accepts
reset-only and both; any set with an asynchronous-variant member
rejects reset-only and both; a set without reset/set rejects every
removal involving reset/set, and a set without enable rejects every
removal involving enable. -/
theorem claim_C5 : ∀ (nl : Netlist) (cm : CsetMap) (cset : ControlSet),
    (cset.rs.isSome = true → cset.ena.isSome = true →
      hasAsyncMember nl cm cset = false →
      can_convert nl cm cset 2 = false ∧
      can_convert nl cm cset 1 = true ∧
      can_convert nl cm cset 3 = true) ∧
    (hasAsyncMember nl cm cset = true →
      can_convert nl cm cset 1 = false ∧ can_convert nl cm cset 3 = false) ∧
    (cset.rs = none →
      can_convert nl cm cset 1 = false ∧ can_convert nl cm cset 3 = false) ∧
    (cset.ena = none →
      can_convert nl cm cset 2 = false ∧ can_convert nl cm cset 3 = false) := by
  intro nl cm cset
  refine ⟨fun h1 h2 h3 => ⟨?_, ?_, ?_⟩, fun h => ⟨?_, ?_⟩, fun h => ⟨?_, ?_⟩,
    fun h => ⟨?_, ?_⟩⟩ <;>
    simp_all +decide [can_convert]

theorem claim_C5_witness :
    can_convert nlE (build_map nlE) csE 2 = false ∧
    can_convert nlE (build_map nlE) csE 1 = true ∧
    can_convert nlE (build_map nlE) csE 3 = true ∧
    can_convert nlR (build_map nlR) csA 1 = false ∧
    can_convert nlR (build_map nlR) csA 3 = false ∧
    can_convert nl1 (build_map nl1) csB 1 = false ∧
    can_convert nl1 (build_map nl1) csA 2 = false := by
  refine ⟨?_, ?_, ?_, ?_, ?_, ?_, ?_⟩
  · exact ((claim_C5 nlE (build_map nlE) csE).1 (by decide) (by decide) (by decide)).1
  · exact ((claim_C5 nlE (build_map nlE) csE).1 (by decide) (by decide) (by decide)).2.1
  · exact ((claim_C5 nlE (build_map nlE) csE).1 (by decide) (by decide) (by decide)).2.2
  · exact ((claim_C5 nlR (build_map nlR) csA).2.1 (by decide)).1
  · exact ((claim_C5 nlR (build_map nlR) csA).2.1 (by decide)).2
  · exact ((claim_C5 nl1 (build_map nl1) csB).2.2.1 (by decide)).1
  · exact ((claim_C5 nl1 (build_map nl1) csA).2.2.2 (by decide)).1

theorem costCellStep_eq (nl : Netlist) (n_in cost : Nat) (cn : String) :
    costCellStep nl n_in cost cn = cost + (chargedAt nl n_in cn).toNat := by
  unfold costCellStep chargedAt
  cases hfc : findCell nl cn
  case none => simp [hfc]
  case some cell =>
    cases hd : cell.portNet "D"
    case none => simp [hfc, hd]
    case some dnet =>
      cases hdr : netDriver nl dnet
      case none => simp [hfc, hd, hdr]
      case some pr =>
        obtain ⟨driver, p⟩ := pr
        by_cases ht : driver.type = "SB_LUT4"
        · by_cases hgt : (match driver.portNet "O" with
              | some onet => (netUsers nl onet).length
              | none => 0) > 1
          · simp [hfc, hd, hdr, ht, hgt]
          · by_cases hfree : (lut_free_ports nl driver).length < n_in
            · simp [hfc, hd, hdr, ht, hgt, hfree]
            · simp [hfc, hd, hdr, ht, hgt, hfree]
        · simp [hfc, hd, hdr, ht]

theorem cost_convert_countP (nl : Netlist) (cm : CsetMap) (cset : ControlSet)
    (conv : Nat) :
    cost_convert nl cm cset conv
      = (membersOf cm cset).countP (chargedAt nl (nIn conv)) := by
  unfold cost_convert
  have key : ∀ (l : List String) (c : Nat),
      l.foldl (costCellStep nl (nIn conv)) c = c + l.countP (chargedAt nl (nIn conv)) := by
    intro l
    induction l with
    | nil => intro c; simp
    | cons a l ih =>
      intro c
      simp only [List.foldl_cons, costCellStep_eq, List.countP_cons]
      rw [ih]
      cases h : chargedAt nl (nIn conv) a <;> simp [h] <;> omega
  simpa using key (membersOf cm cset) 0

theorem chargedAt_eq_spec (nl : Netlist) (conv : Nat) (cn : String)
    (h : lutUserOk nl cn = true) :
    chargedAt nl (nIn conv) cn = spec_charged nl conv cn := by
  unfold chargedAt spec_charged
  unfold lutUserOk at h
  cases hfc : findCell nl cn
  case none => simp [hfc]
  case some cell =>
    simp only [hfc] at h ⊢
    cases hd : cell.portNet "D"
    case none => simp [hd]
    case some dnet =>
      simp only [hd] at h ⊢
      cases hdr : netDriver nl dnet
      case none => simp [hdr]
      case some pr =>
        obtain ⟨driver, p⟩ := pr
        simp only [hdr] at h ⊢
        by_cases ht : driver.type = "SB_LUT4"
        · simp only [ht, if_pos rfl] at h
          cases ho : driver.portNet "O"
          · simp only [ho] at h
            exact absurd h (by simp)
          · rename_i onet
            simp only [ho] at h
            have h1 : 1 ≤ (netUsers nl onet).length := by simpa using h
            by_cases hgt : (netUsers nl onet).length > 1
            · have he : ((netUsers nl onet).length == 1) = false := by
                simp
                omega
              simp [ht, ho, hgt, he]
            · have he : ((netUsers nl onet).length == 1) = true := by
                simp
                omega
              simp [ht, ho, hgt, he]
        · simp [ht]

theorem chargedAt_of_notLut (nl : Netlist) (n_in : Nat) (cn : String)
    (h : notLutDriven nl cn = true) : chargedAt nl n_in cn = false := by
  unfold chargedAt
  unfold notLutDriven at h
  cases hfc : findCell nl cn
  case none => simp [hfc]
  case some cell =>
    simp only [hfc] at h ⊢
    cases hd : cell.portNet "D"
    case none => simp [hd]
    case some dnet =>
      simp only [hd] at h ⊢
      cases hdr : netDriver nl dnet
      case none => simp [hdr]
      case some pr =>
        obtain ⟨driver, p⟩ := pr
        simp only [hdr] at h ⊢
        have ht : driver.type ≠ "SB_LUT4" := by simpa using h
        simp [ht]

/-- C6: the cost model.  Under the netlist sanity condition that a
LUT-driven member's output net has at least one consumer, the cost
equals the number of members whose `D` driver is a single-consumer
lookup table with fewer free inputs than the required spare inputs
(1 for reset-only, 2 for enable-only, 3 for both); a control set none
of whose members is LUT-driven costs 0 for any removal. -/
theorem claim_C6 : ∀ (nl : Netlist) (cm : CsetMap) (cset : ControlSet) (conv : Nat),
    ((membersOf cm cset).all (lutUserOk nl) = true →
      cost_convert nl cm cset conv
        = (membersOf cm cset).countP (spec_charged nl conv)) ∧
    (nIn 1 = 1 ∧ nIn 2 = 2 ∧ nIn 3 = 3) ∧
    ((membersOf cm cset).all (notLutDriven nl) = true →
      cost_convert nl cm cset conv = 0) := by
  intro nl cm cset conv
  refine ⟨fun h => ?_, by decide, fun h => ?_⟩
  · rw [cost_convert_countP]
    apply List.countP_congr
    intro a ha
    have hx : lutUserOk nl a = true := by simpa using List.all_eq_true.mp h a ha
    rw [chargedAt_eq_spec nl conv a hx]
  · rw [cost_convert_countP]
    apply List.countP_eq_zero.mpr
    intro a ha hc
    have hn := List.all_eq_true.mp h a ha
    rw [chargedAt_of_notLut nl (nIn conv) a (by simpa using hn)] at hc
    exact absurd hc (by simp)

theorem claim_C6_witness :
    cost_convert nlW (build_map nlW) csA 1
      = (membersOf (build_map nlW) csA).countP (spec_charged nlW 1) ∧
    cost_convert nlW (build_map nlW) csA 1 = 1 ∧
    cost_convert nl1 (build_map nl1) csA 3 = 0 := by
  refine ⟨(claim_C6 nlW (build_map nlW) csA 1).1 (by decide), by decide,
    (claim_C6 nl1 (build_map nl1) csA 3).2.2 (by decide)⟩

theorem scanStep_one (nl : Netlist) (cm : CsetMap) (threshold conv : Nat)
    (rm_rs rm_ena : Bool) (tgt : ControlSet) (s : Nat × List ControlSet)
    (alt : ControlSet) :
    (scanStep nl cm threshold conv rm_rs rm_ena tgt s alt).1
      = s.1 + (if (decide ((membersOf cm alt).length < threshold) &&
            can_convert nl cm alt conv &&
            decide (convTarget alt rm_rs rm_ena = tgt)) then
          (membersOf cm alt).length else 0) := by
  unfold scanStep
  by_cases h1 : (membersOf cm alt).length ≥ threshold
  · have hlt : (decide ((membersOf cm alt).length < threshold)) = false := by
      simp
      omega
    simp [h1, hlt]
  · have hlt : (decide ((membersOf cm alt).length < threshold)) = true := by
      simp
      omega
    by_cases h2 : can_convert nl cm alt conv
    · by_cases h3 : convTarget alt rm_rs rm_ena = tgt <;> simp [h1, h2, h3, hlt]
    · have h2' : can_convert nl cm alt conv = false := by
        cases hc : can_convert nl cm alt conv
        · rfl
        · exact absurd hc h2
      simp [h1, h2', hlt]

theorem scanFold_sum (nl : Netlist) (cm : CsetMap) (threshold conv : Nat)
    (rm_rs rm_ena : Bool) (tgt : ControlSet) :
    ∀ (tp : List ControlSet) (s : Nat × List ControlSet),
      (tp.foldl (scanStep nl cm threshold conv rm_rs rm_ena tgt) s).1
        = s.1 + ((tp.filter (fun alt =>
              decide ((membersOf cm alt).length < threshold) &&
              can_convert nl cm alt conv &&
              decide (convTarget alt rm_rs rm_ena = tgt))).map
            (fun alt => (membersOf cm alt).length)).sum := by
  intro tp
  induction tp with
  | nil => intro s; simp
  | cons alt tp ih =>
    intro s
    rw [List.foldl_cons, ih, scanStep_one, List.filter_cons]
    cases hq : (decide ((membersOf cm alt).length < threshold) &&
        can_convert nl cm alt conv &&
        decide (convTarget alt rm_rs rm_ena = tgt)) <;>
      simp [hq] <;> omega

/-- C7 fails on the code: when the target signature retains neither a
reset/set nor an enable net, the alternative-set scan is skipped, so a
matching still-unprocessed legal control set is not counted even
though the claim's formula counts it. -/
theorem claim_C7_counterexample :
    (membersOf (build_map nl3) csY).length < 4 ∧
    can_convert nl3 (build_map nl3) csY 1 = true ∧
    convTarget csY true false = convTarget csA true false ∧
    (projectedGroup nl3 (build_map nl3) [csY] 4 csA 1).1
      ≠ spec_projected_size nl3 (build_map nl3) [csY] 4 csA 1 := by
  refine ⟨by decide, by decide, by decide, by decide⟩

/-- C7 (amended): the projected group size equals the set's own member
count plus the bucket already filed under the target signature, plus —
only when the target signature retains a truthy (non-empty-named)
reset/set or enable net — the member counts of every other
still-unprocessed, below-threshold, independently legal control set
whose removal yields the same target; when the target retains neither,
the alternative-set scan is skipped and nothing more is added. -/
theorem claim_C7 : ∀ (nl : Netlist) (cm : CsetMap) (tp : List ControlSet)
    (threshold : Nat) (cset : ControlSet) (conv : Nat),
    (projectedGroup nl cm tp threshold cset conv).1
      = (membersOf cm cset).length
        + (membersOf cm (convTarget cset (decide (conv &&& 1 ≠ 0))
            (decide (conv &&& 2 ≠ 0)))).length
        + (if pyTruthy (convTarget cset (decide (conv &&& 1 ≠ 0))
                (decide (conv &&& 2 ≠ 0))).rs
              || pyTruthy (convTarget cset (decide (conv &&& 1 ≠ 0))
                (decide (conv &&& 2 ≠ 0))).ena then
            spec_alt_sum nl cm tp threshold conv
              (convTarget cset (decide (conv &&& 1 ≠ 0)) (decide (conv &&& 2 ≠ 0)))
          else 0) := by
  intro nl cm tp threshold cset conv
  unfold projectedGroup groupScan spec_alt_sum
  have hbase : (match mapLookup cm (convTarget cset (decide (conv &&& 1 ≠ 0))
        (decide (conv &&& 2 ≠ 0))) with
      | some l => l.length
      | none => 0)
      = (membersOf cm (convTarget cset (decide (conv &&& 1 ≠ 0))
          (decide (conv &&& 2 ≠ 0)))).length := by
    unfold membersOf
    cases mapLookup cm (convTarget cset (decide (conv &&& 1 ≠ 0))
      (decide (conv &&& 2 ≠ 0))) <;> simp
  by_cases hg : (pyTruthy (convTarget cset (decide (conv &&& 1 ≠ 0))
        (decide (conv &&& 2 ≠ 0))).rs
      || pyTruthy (convTarget cset (decide (conv &&& 1 ≠ 0))
        (decide (conv &&& 2 ≠ 0))).ena) = true
  · rw [if_pos hg, if_pos hg, scanFold_sum]
    dsimp only
    rw [hbase]
  · rw [if_neg hg, if_neg hg]
    dsimp only
    rw [hbase]
    omega

theorem bucketSum_cons (k : ControlSet) (l : List String) (rest : CsetMap) :
    bucketSum ((k, l) :: rest) = l.length + bucketSum rest := by
  simp [bucketSum]

theorem bucketSum_mapExtend (m : CsetMap) (k : ControlSet) (vs : List String) :
    bucketSum (mapExtend m k vs) = bucketSum m + vs.length := by
  induction m with
  | nil => simp [mapExtend, bucketSum]
  | cons kv rest ih =>
    obtain ⟨k', l⟩ := kv
    by_cases h : k' = k
    · simp only [mapExtend, if_pos h]
      rw [bucketSum_cons, bucketSum_cons]
      simp only [List.length_append]
      omega
    · simp only [mapExtend, if_neg h]
      rw [bucketSum_cons, bucketSum_cons, ih]
      omega

theorem bucketSum_mapPop (m : CsetMap) (k : ControlSet) :
    bucketSum (mapPop m k) + ((mapLookup m k).getD []).length = bucketSum m := by
  induction m with
  | nil => simp [mapPop, mapLookup, bucketSum]
  | cons kv rest ih =>
    obtain ⟨k', l⟩ := kv
    by_cases h : k' = k
    · subst h
      have hp : mapPop ((k', l) :: rest) k' = rest := by
        simp [mapPop, List.eraseP_cons]
      have hl : mapLookup ((k', l) :: rest) k' = some l := by
        simp [mapLookup]
      rw [hp, hl, bucketSum_cons]
      simp
      omega
    · have hp : mapPop ((k', l) :: rest) k = (k', l) :: mapPop rest k := by
        simp [mapPop, List.eraseP_cons, h]
      have hl : mapLookup ((k', l) :: rest) k = mapLookup rest k := by
        simp [mapLookup, h]
      rw [hp, hl, bucketSum_cons, bucketSum_cons]
      omega

theorem applyOne_bucketSum (conv : Nat) (tgt : ControlSet)
    (acc : Netlist × CsetMap × List ControlSet) (c : ControlSet) :
    bucketSum ((applyOne conv tgt acc c).2.1) = bucketSum acc.2.1 := by
  unfold applyOne membersOf
  try dsimp only
  rw [bucketSum_mapExtend]
  have := bucketSum_mapPop acc.2.1 c
  omega

theorem applyFold_bucketSum (conv : Nat) (tgt : ControlSet) :
    ∀ (group : List ControlSet) (acc : Netlist × CsetMap × List ControlSet),
      bucketSum ((group.foldl (applyOne conv tgt) acc).2.1) = bucketSum acc.2.1 := by
  intro group
  induction group with
  | nil => intro acc; rfl
  | cons c group ih =>
    intro acc
    rw [List.foldl_cons, ih, applyOne_bucketSum]

theorem optimizeLoop_bucketSum (threshold : Nat) (d : Bool) :
    ∀ (fuel : Nat) (nl : Netlist) (cm : CsetMap) (tp : List ControlSet)
      (cost : Nat) (log : List LogEntry),
      bucketSum ((optimizeLoop threshold d fuel nl cm tp cost log).2.1) = bucketSum cm := by
  intro fuel
  induction fuel with
  | zero => intro nl cm tp cost log; rfl
  | succ fuel ih =>
    intro nl cm tp cost log
    simp only [optimizeLoop]
    cases hlast : tp.getLast?
    · rfl
    · rename_i cset
      dsimp only
      by_cases hth : (membersOf cm cset).length ≥ threshold
      · rw [if_pos hth]
        exact ih _ _ _ _ _
      · rw [if_neg hth]
        cases hcands : sortBy candLE (possibleTgts nl cm tp.dropLast threshold cset)
        · exact ih _ _ _ _ _
        · rename_i chosen rest
          dsimp only
          rw [ih, applyFold_bucketSum]

/-- C8: cell conservation.  The sum of member-cell counts over all
buckets of the equivalence index is the same after the run as before
it, and each elementary merge step (pop a source bucket, extend the
target bucket with exactly the popped cells) preserves that sum. -/
theorem claim_C8 : ∀ (self : ControlSetOptimizer) (threshold : Nat) (d : Bool),
    bucketSum ((self.optimize threshold d).cset_map) = bucketSum self.cset_map ∧
    (∀ (m : CsetMap) (k tgt : ControlSet),
      bucketSum (mapExtend (mapPop m k) tgt ((mapLookup m k).getD []))
        = bucketSum m) := by
  intro self threshold d
  constructor
  · unfold ControlSetOptimizer.optimize
    dsimp only
    exact optimizeLoop_bucketSum threshold d _ _ _ _ _ _
  · intro m k tgt
    rw [bucketSum_mapExtend]
    have := bucketSum_mapPop m k
    omega

theorem mapLookup_mapPop_ne (m : CsetMap) (k k' : ControlSet) (h : k' ≠ k) :
    mapLookup (mapPop m k) k' = mapLookup m k' := by
  induction m with
  | nil => rfl
  | cons kv rest ih =>
    obtain ⟨a, l⟩ := kv
    by_cases ha : a = k
    · subst ha
      have hak : ¬ a = k' := fun hc => h hc.symm
      have hp : mapPop ((a, l) :: rest) a = rest := by
        simp [mapPop, List.eraseP_cons]
      have hl : mapLookup ((a, l) :: rest) k' = mapLookup rest k' := by
        simp [mapLookup, hak]
      rw [hp, hl]
    · have hp : mapPop ((a, l) :: rest) k = (a, l) :: mapPop rest k := by
        simp [mapPop, List.eraseP_cons, ha]
      rw [hp]
      by_cases ha' : a = k'
      · subst ha'
        simp [mapLookup]
      · have h1 : mapLookup ((a, l) :: mapPop rest k) k' = mapLookup (mapPop rest k) k' := by
          simp [mapLookup, ha']
        have h2 : mapLookup ((a, l) :: rest) k' = mapLookup rest k' := by
          simp [mapLookup, ha']
        rw [h1, h2, ih]

theorem mapLookup_mapExtend_self (m : CsetMap) (k : ControlSet) (vs : List String) :
    mapLookup (mapExtend m k vs) k = some (((mapLookup m k).getD []) ++ vs) := by
  induction m with
  | nil => simp [mapExtend, mapLookup]
  | cons kv rest ih =>
    obtain ⟨a, l⟩ := kv
    by_cases ha : a = k
    · subst ha
      simp only [mapExtend, if_pos rfl]
      simp [mapLookup]
    · simp only [mapExtend, if_neg ha]
      have h1 : mapLookup ((a, l) :: mapExtend rest k vs) k
          = mapLookup (mapExtend rest k vs) k := by
        simp [mapLookup, ha]
      have h2 : mapLookup ((a, l) :: rest) k = mapLookup rest k := by
        simp [mapLookup, ha]
      rw [h1, h2, ih]

theorem mapLookup_mapExtend_ne (m : CsetMap) (k k' : ControlSet) (vs : List String)
    (h : k' ≠ k) :
    mapLookup (mapExtend m k vs) k' = mapLookup m k' := by
  induction m with
  | nil => simp [mapExtend, mapLookup, Ne.symm h]
  | cons kv rest ih =>
    obtain ⟨a, l⟩ := kv
    by_cases ha : a = k
    · subst ha
      have hak : ¬ a = k' := fun hc => h hc.symm
      simp only [mapExtend, if_pos rfl]
      simp [mapLookup, hak]
    · simp only [mapExtend, if_neg ha]
      by_cases ha' : a = k'
      · subst ha'
        simp [mapLookup]
      · have h1 : mapLookup ((a, l) :: mapExtend rest k vs) k'
            = mapLookup (mapExtend rest k vs) k' := by
          simp [mapLookup, ha']
        have h2 : mapLookup ((a, l) :: rest) k' = mapLookup rest k' := by
          simp [mapLookup, ha']
        rw [h1, h2, ih]

theorem orderedInsert_mem {α : Type} (le : α → α → Bool) (a x : α) :
    ∀ (l : List α), x ∈ orderedInsert le a l → x = a ∨ x ∈ l := by
  intro l
  induction l with
  | nil =>
    intro h
    simp only [orderedInsert] at h
    exact Or.inl (by simpa using h)
  | cons b l ih =>
    intro h
    unfold orderedInsert at h
    by_cases hc : le a b
    · rw [if_pos hc] at h
      rcases List.mem_cons.mp h with h' | h'
      · exact Or.inl h'
      · exact Or.inr h'
    · rw [if_neg hc] at h
      rcases List.mem_cons.mp h with h' | h'
      · exact Or.inr (by simp [h'])
      · rcases ih h' with h'' | h''
        · exact Or.inl h''
        · exact Or.inr (List.mem_cons_of_mem _ h'')

theorem sortBy_mem {α : Type} (le : α → α → Bool) :
    ∀ (l : List α) (x : α), x ∈ sortBy le l → x ∈ l := by
  intro l
  induction l with
  | nil => intro x h; simpa [sortBy] using h
  | cons a l ih =>
    intro x h
    unfold sortBy at h
    rcases orderedInsert_mem le a x _ h with h' | h'
    · simp [h']
    · exact List.mem_cons_of_mem _ (ih x h')

theorem scanFold_mem (nl : Netlist) (cm : CsetMap) (threshold conv : Nat)
    (rm_rs rm_ena : Bool) (tgt : ControlSet) :
    ∀ (tp : List ControlSet) (s : Nat × List ControlSet) (x : ControlSet),
      x ∈ (tp.foldl (scanStep nl cm threshold conv rm_rs rm_ena tgt) s).2 →
      x ∈ s.2 ∨ (membersOf cm x).length < threshold := by
  intro tp
  induction tp with
  | nil => intro s x hx; exact Or.inl hx
  | cons alt tp ih =>
    intro s x hx
    rw [List.foldl_cons] at hx
    rcases ih _ x hx with hs | hsmall
    · simp only [scanStep] at hs
      split_ifs at hs with h1 h2 h3
      · exact Or.inl hs
      · exact Or.inl hs
      · rcases List.mem_append.mp hs with h' | h'
        · exact Or.inl h'
        · have hxa : x = alt := by simpa using h'
          subst hxa
          exact Or.inr (by omega)
      · exact Or.inl hs
    · exact Or.inr hsmall

theorem projectedGroup_mem (nl : Netlist) (cm : CsetMap) (tp : List ControlSet)
    (threshold : Nat) (cset : ControlSet) (conv : Nat) (x : ControlSet)
    (hx : x ∈ (projectedGroup nl cm tp threshold cset conv).2) :
    x = cset ∨ (membersOf cm x).length < threshold := by
  simp only [projectedGroup, groupScan] at hx
  split_ifs at hx
  · rcases scanFold_mem nl cm threshold conv _ _ _ tp _ x hx with h | h
    · exact Or.inl (by simpa using h)
    · exact Or.inr h
  · exact Or.inl (by simpa using hx)

theorem evalConv_group (nl : Netlist) (cm : CsetMap) (tp : List ControlSet)
    (threshold : Nat) (cset : ControlSet) (conv : Nat) (c : Candidate)
    (h : evalConv nl cm tp threshold cset conv = some c) :
    c.cset_in_group = (projectedGroup nl cm tp threshold cset conv).2 := by
  unfold evalConv at h
  by_cases hc : can_convert nl cm cset conv
  · simp only [hc] at h
    by_cases hlt : (projectedGroup nl cm tp threshold cset conv).1 < threshold
    · simp [hlt] at h
    · simp only [if_neg hlt] at h
      have := Option.some.inj h
      rw [← this]
  · simp [hc] at h

theorem possibleTgts_mem (nl : Netlist) (cm : CsetMap) (tp : List ControlSet)
    (threshold : Nat) (cset : ControlSet) (c : Candidate)
    (h : c ∈ possibleTgts nl cm tp threshold cset) :
    ∃ conv, evalConv nl cm tp threshold cset conv = some c := by
  unfold possibleTgts at h
  rcases List.mem_filterMap.mp h with ⟨conv, _, he⟩
  exact ⟨conv, he⟩

theorem applyFold_lookup (conv : Nat) (tgt p : ControlSet) (l0 : List String) :
    ∀ (group : List ControlSet) (acc : Netlist × CsetMap × List ControlSet),
      (∀ x ∈ group, x ≠ p) →
      (∃ ext, mapLookup acc.2.1 p = some (l0 ++ ext)) →
      ∃ ext, mapLookup ((group.foldl (applyOne conv tgt) acc).2.1) p
        = some (l0 ++ ext) := by
  intro group
  induction group with
  | nil => intro acc _ h; exact h
  | cons c group ih =>
    intro acc hne h
    rw [List.foldl_cons]
    apply ih _ (fun x hx => hne x (List.mem_cons_of_mem _ hx))
    obtain ⟨ext, hl⟩ := h
    have hcp : c ≠ p := hne c (List.mem_cons_self _ _)
    unfold applyOne
    try dsimp only
    by_cases htp : tgt = p
    · subst htp
      rw [mapLookup_mapExtend_self, mapLookup_mapPop_ne _ _ _ (Ne.symm hcp), hl]
      exact ⟨ext ++ membersOf acc.2.1 c, by simp⟩
    · rw [mapLookup_mapExtend_ne _ _ _ _ (fun he => htp he.symm),
        mapLookup_mapPop_ne _ _ _ (Ne.symm hcp)]
      exact ⟨ext, hl⟩

theorem optimizeLoop_lookup (threshold : Nat) (d : Bool) (p : ControlSet)
    (l0 : List String) (hl0 : threshold ≤ l0.length) :
    ∀ (fuel : Nat) (nl : Netlist) (cm : CsetMap) (tp : List ControlSet)
      (cost : Nat) (log : List LogEntry),
      (∃ ext, mapLookup cm p = some (l0 ++ ext)) →
      ∃ ext, mapLookup ((optimizeLoop threshold d fuel nl cm tp cost log).2.1) p
        = some (l0 ++ ext) := by
  intro fuel
  induction fuel with
  | zero => intro nl cm tp cost log h; exact h
  | succ fuel ih =>
    intro nl cm tp cost log h
    simp only [optimizeLoop]
    cases hlast : tp.getLast?
    · exact h
    · rename_i cset
      dsimp only
      by_cases hth : (membersOf cm cset).length ≥ threshold
      · rw [if_pos hth]
        exact ih _ _ _ _ _ h
      · rw [if_neg hth]
        cases hcands : sortBy candLE (possibleTgts nl cm tp.dropLast threshold cset)
        · exact ih _ _ _ _ _ h
        · rename_i chosen rest
          dsimp only
          apply ih
          apply applyFold_lookup
          · intro x hx
            have hmem : chosen ∈ possibleTgts nl cm tp.dropLast threshold cset := by
              have hin : chosen ∈ sortBy candLE
                  (possibleTgts nl cm tp.dropLast threshold cset) := by
                rw [hcands]
                exact List.mem_cons_self _ _
              exact sortBy_mem _ _ _ hin
            obtain ⟨conv, hec⟩ := possibleTgts_mem _ _ _ _ _ _ hmem
            have hgrp := evalConv_group _ _ _ _ _ _ _ hec
            rw [hgrp] at hx
            obtain ⟨ext, hl⟩ := h
            have hplen : (membersOf cm p).length = (l0 ++ ext).length := by
              unfold membersOf
              rw [hl]
              rfl
            rcases projectedGroup_mem _ _ _ _ _ _ _ hx with hxc | hxs
            · subst hxc
              intro heq
              rw [heq] at hth
              apply hth
              rw [hplen]
              simp only [List.length_append]
              omega
            · intro heq
              rw [heq] at hxs
              rw [hplen] at hxs
              simp only [List.length_append] at hxs
              omega
          · exact h

/-- C2 fails on the code: a control set at or above the threshold is
indeed never converted and its key survives, but when it is chosen as
the merge target its member list is extended, so the list is not
unchanged.  With threshold 4, B = (none, none, \"c\") holding 4 cells
and A = (\"x\", none, \"c\") holding 2, the run folds A's cells into
B's bucket. -/
theorem claim_C2_counterexample :
    mapLookup (ControlSetOptimizer.init nl2).cset_map csB
      = some ["fb1", "fb2", "fb3", "fb4"] ∧
    4 ≤ (["fb1", "fb2", "fb3", "fb4"] : List String).length ∧
    mapLookup (((ControlSetOptimizer.init nl2).optimize 4 false).cset_map) csB
      ≠ some ["fb1", "fb2", "fb3", "fb4"] := by
  refine ⟨by decide, by decide, by decide⟩

/-- C2 (amended): every control set whose member count is at least the
threshold at the start of the run still has its key in the equivalence
index afterwards, and its original member list survives as a prefix of
the final list, in the same order; the list may however be extended at
the end by the cells of control sets merged into it. -/
theorem claim_C2 : ∀ (self : ControlSetOptimizer) (threshold : Nat) (d : Bool)
    (p : ControlSet) (l0 : List String),
    mapLookup self.cset_map p = some l0 → threshold ≤ l0.length →
    ∃ l', mapLookup ((self.optimize threshold d).cset_map) p = some l' ∧
      ∃ ext, l' = l0 ++ ext := by
  intro self threshold d p l0 h1 h2
  unfold ControlSetOptimizer.optimize
  dsimp only
  have hstart : ∃ ext, mapLookup self.cset_map p = some (l0 ++ ext) :=
    ⟨[], by simpa using h1⟩
  obtain ⟨ext, he⟩ := optimizeLoop_lookup threshold d p l0 h2 _ self.nl
    self.cset_map (sortBy keyLE (self.cset_map.map (fun kv => kv.1))) 0 [] hstart
  exact ⟨l0 ++ ext, he, ext, rfl⟩

theorem claim_C2_witness :
    (4 : Nat) ≤ (["fb1", "fb2", "fb3", "fb4"] : List String).length ∧
    ∃ l', mapLookup (((ControlSetOptimizer.init nl2).optimize 4 false).cset_map) csB
        = some l' ∧
      ∃ ext, l' = ["fb1", "fb2", "fb3", "fb4"] ++ ext := by
  exact ⟨by decide,
    claim_C2 (ControlSetOptimizer.init nl2) 4 false csB ["fb1", "fb2", "fb3", "fb4"]
      (by decide) (by decide)⟩

end Ice40Cset
